import Mathlib

/-!
# Verification of the todo-backend task/project service

Shallow embedding of the repository's core logic:

* `src/routes/tasks.js` — task filter engine (`GET /` where-clause build and
  `orderBy`), single-task fetch, update, toggle, soft delete, restore,
  permanent delete.
* `src/routes/projects.js` — project fetch and the project-deletion
  transaction that clears `projectId` on referencing tasks.
* passport configuration (local strategy, Google OAuth strategy).

Database rows are modelled as Lean structures; the stored state is a list of
rows.  Prisma's `findFirst`/`findUnique` become `List.find?`, `update` by a
unique key becomes a conditional `List.map`, `delete` becomes `List.filter`,
and `$transaction` becomes a single Lean function producing the final state.
`undefined` fields of a JS payload are modelled with `Option` (absent =
`none`), matching Prisma's skip-on-undefined semantics.
-/

namespace Todo

/-- Task priority enum, from the Prisma schema values used by the routes
(`LOW`, `MEDIUM`, `HIGH`). -/
inductive Priority
  | LOW
  | MEDIUM
  | HIGH
deriving DecidableEq

/-- Numeric rank of a priority: `LOW < MEDIUM < HIGH`.  Modelled from the
spec: the database enum's comparison order (HIGH > MEDIUM > LOW) is fixed in
the Prisma schema, which is not among the source files. -/
def Priority.rank : Priority → Nat
  | .LOW => 0
  | .MEDIUM => 1
  | .HIGH => 2

/-- A task row.  Timestamps and due dates are integers (epoch milliseconds);
ids are naturals. -/
structure Task where
  id : Nat
  title : String
  description : Option String
  dueDate : Option Int
  priority : Priority
  isComplete : Bool
  isDeleted : Bool
  deletedAt : Option Int
  projectId : Option Nat
  userId : Nat
  createdAt : Int
deriving DecidableEq

/-- A project row. -/
structure Project where
  id : Nat
  name : String
  color : String
  userId : Nat
  createdAt : Int
deriving DecidableEq

/-- The `view` query parameter (validated against
`['today', 'upcoming', 'completed', 'trash']`). -/
inductive View
  | today
  | upcoming
  | completed
  | trash
deriving DecidableEq

/-- The `status` query parameter (validated against
`['all', 'complete', 'incomplete']`). -/
inductive Status
  | all
  | complete
  | incomplete
deriving DecidableEq

/-- Query criteria of `GET /` in `tasks.js` after express-validator: each
field absent (`none`) or a validated value.  `search` arrives trimmed. -/
structure Criteria where
  status : Option Status := none
  priority : Option Priority := none
  projectId : Option Nat := none
  search : Option String := none
  view : Option View := none
deriving DecidableEq

/-- The mutable `where` object built field-by-field by `GET /` in
`tasks.js`.  `none` means the field was never assigned.  JS object-field
assignment is record update, so a later assignment to the same field
overwrites the earlier one. -/
structure TaskWhere where
  userId : Nat
  isDeleted : Option Bool := none
  isComplete : Option Bool := none
  dueGte : Option Int := none
  dueLt : Option Int := none
  priority : Option Priority := none
  projectId : Option Nat := none
  search : Option String := none
deriving DecidableEq

/-- The where-clause build of `GET /` (`tasks.js` lines 31–83), statement by
statement.  `today`/`tomorrow` stand for the start of the current and next
day computed by the route.  The `view` block assigns first; the `status`
block then assigns `where.isComplete` again when status is
`complete`/`incomplete`, overwriting any value the view set. -/
def buildWhere (userId : Nat) (today tomorrow : Int) (c : Criteria) : TaskWhere :=
  let w : TaskWhere := { userId := userId }
  let w := match c.view with
    | some .today => { w with isDeleted := some false, dueGte := some today, dueLt := some tomorrow }
    | some .upcoming => { w with isDeleted := some false, dueGte := some today }
    | some .completed => { w with isComplete := some true, isDeleted := some false }
    | some .trash => { w with isDeleted := some true }
    | none => { w with isDeleted := some false }
  let w := match c.status with
    | some .complete => { w with isComplete := some true }
    | some .incomplete => { w with isComplete := some false }
    | _ => w
  let w := match c.priority with
    | some p => { w with priority := some p }
    | none => w
  let w := match c.projectId with
    | some pid => { w with projectId := some pid }
    | none => w
  let w := match c.search with
    | some s => if s = "" then w else { w with search := some s }
    | none => w
  w

/-- Bool-valued substring test on character lists. -/
def containsSub (hay needle : List Char) : Bool :=
  match hay with
  | [] => needle.isEmpty
  | _ :: t => needle.isPrefixOf hay || containsSub t needle

/-- Case-insensitive substring match, modelling Prisma
`contains … mode: 'insensitive'`. -/
def containsCI (hay needle : String) : Bool :=
  containsSub hay.toLower.toList needle.toLower.toList

/-- Whether a task row satisfies the built where clause, following Prisma
semantics: each set field is an ANDed equality/range constraint; a `null`
column never satisfies a `gte`/`lt` range; `search` is an OR over title and
description. -/
def matchesWhere (w : TaskWhere) (t : Task) : Bool :=
  t.userId == w.userId
  && (match w.isDeleted with | some b => t.isDeleted == b | none => true)
  && (match w.isComplete with | some b => t.isComplete == b | none => true)
  && (match w.dueGte with
      | some d => match t.dueDate with | some dd => d ≤ dd | none => false
      | none => true)
  && (match w.dueLt with
      | some d => match t.dueDate with | some dd => dd < d | none => false
      | none => true)
  && (match w.priority with | some p => t.priority == p | none => true)
  && (match w.projectId with | some pid => t.projectId == some pid | none => true)
  && (match w.search with
      | some s => containsCI t.title s
          || (match t.description with | some d => containsCI d s | none => false)
      | none => true)

/-- Sort key realising `orderBy: [{dueDate: 'asc'}, {priority: 'desc'},
{createdAt: 'desc'}]` (`tasks.js` lines 92–96) as a lexicographic triple.
Modelled from the spec for the parts the source does not fix: a `null`
due date sorts after all dated tasks (ascending order places nulls last),
and priorities compare as `HIGH > MEDIUM > LOW`. -/
def sortKey (t : Task) : (WithTop Int) ×ₗ ((Natᵒᵈ) ×ₗ (Intᵒᵈ)) :=
  toLex (t.dueDate.elim ⊤ (fun d => (d : WithTop Int)),
    toLex (OrderDual.toDual t.priority.rank, OrderDual.toDual t.createdAt))

/-- The total preorder the result list is sorted by. -/
def TaskOrder (a b : Task) : Prop := sortKey a ≤ sortKey b

instance : DecidableRel TaskOrder :=
  fun a b => inferInstanceAs (Decidable (sortKey a ≤ sortKey b))

instance : IsTotal Task TaskOrder := ⟨fun a b => le_total (sortKey a) (sortKey b)⟩

instance : IsTrans Task TaskOrder := ⟨fun _ _ _ hab hbc => le_trans hab hbc⟩

/-- `GET /` of `tasks.js`: build the where clause, filter the stored tasks,
and return them ordered by the three-key sort. -/
def listTasks (userId : Nat) (today tomorrow : Int) (c : Criteria)
    (tasks : List Task) : List Task :=
  List.insertionSort TaskOrder
    (tasks.filter (fun t => matchesWhere (buildWhere userId today tomorrow c) t))

/-! ## Lifecycle operations (`tasks.js`, `projects.js`) -/

/-- Errors surfaced by the routes.  `NotFound` is the 404 `'Task not
found'` / `'Project not found'` response, `NotInTrash` the 404 `'Task not
found in trash'` response of restore/permanent-delete, `InvalidProject` the
400 `'Invalid project ID'` response. -/
inductive Err
  | NotFound
  | NotInTrash
  | InvalidProject
deriving DecidableEq

/-- Prisma `update` keyed by the unique `id`: replace the row with that id,
leave every other row unchanged. -/
def updateById (tasks : List Task) (id : Nat) (f : Task → Task) : List Task :=
  tasks.map (fun t => if t.id = id then f t else t)

/-- `findFirst({ where: { id, userId } })`: the ownership-scoped lookup every
task route performs first. -/
def findOwned (tasks : List Task) (uid id : Nat) : Option Task :=
  tasks.find? (fun t => t.id == id && t.userId == uid)

/-- `findFirst({ where: { id, userId, isDeleted: true } })`: the lookup of
the restore and permanent-delete routes. -/
def findOwnedTrashed (tasks : List Task) (uid id : Nat) : Option Task :=
  tasks.find? (fun t => t.id == id && t.userId == uid && t.isDeleted)

/-- `GET /:id` of `tasks.js`: fetch one task scoped to the acting user;
404 `NotFound` when the ownership-scoped lookup misses. -/
def getTask (uid id : Nat) (tasks : List Task) : Except Err Task :=
  match findOwned tasks uid id with
  | none => .error .NotFound
  | some t => .ok t

/-- `PATCH /:id/toggle` of `tasks.js`: find by `{ id, userId }` (no
`isDeleted` condition), then update the row to the negation of the found
task's `isComplete`.  Returns the new stored task list. -/
def toggleTask (uid id : Nat) (tasks : List Task) : Except Err (List Task) :=
  match findOwned tasks uid id with
  | none => .error .NotFound
  | some t => .ok (updateById tasks id (fun row => { row with isComplete := !t.isComplete }))

/-- `DELETE /:id` of `tasks.js` (soft delete): find by `{ id, userId }`
(no `isDeleted` condition), then set `isDeleted := true` and
`deletedAt := now`. -/
def softDeleteTask (uid id : Nat) (now : Int) (tasks : List Task) : Except Err (List Task) :=
  match findOwned tasks uid id with
  | none => .error .NotFound
  | some _ => .ok (updateById tasks id (fun row => { row with isDeleted := true, deletedAt := some now }))

/-- `PATCH /:id/restore` of `tasks.js`: find by `{ id, userId,
isDeleted: true }`; a miss is the 404 `'Task not found in trash'`
(`NotInTrash`); on a hit clear `isDeleted` and `deletedAt`. -/
def restoreTask (uid id : Nat) (tasks : List Task) : Except Err (List Task) :=
  match findOwnedTrashed tasks uid id with
  | none => .error .NotInTrash
  | some _ => .ok (updateById tasks id (fun row => { row with isDeleted := false, deletedAt := none }))

/-- `DELETE /:id/permanent` of `tasks.js`: find by `{ id, userId,
isDeleted: true }`; a miss is `NotInTrash`; on a hit `prisma.task.delete`
removes the row with that id. -/
def purgeTask (uid id : Nat) (tasks : List Task) : Except Err (List Task) :=
  match findOwnedTrashed tasks uid id with
  | none => .error .NotInTrash
  | some _ => .ok (tasks.filter (fun t => t.id ≠ id))

/-- The per-field partial update body of `PUT /:id` in `tasks.js`: `none`
models a field absent from the request (`undefined` in JS), which the route
leaves out of `updateData`. -/
structure TaskPatch where
  title : Option String := none
  description : Option String := none
  dueDate : Option Int := none
  priority : Option Priority := none
  isComplete : Option Bool := none
  projectId : Option Nat := none
deriving DecidableEq

/-- `PUT /:id` of `tasks.js`: ownership-scoped lookup (404 on miss), then
when a `projectId` is supplied an ownership check of the target project
(400 `InvalidProject` on miss), then update only the supplied fields. -/
def updateTask (uid id : Nat) (patch : TaskPatch) (projects : List Project)
    (tasks : List Task) : Except Err (List Task) :=
  match findOwned tasks uid id with
  | none => .error .NotFound
  | some _ =>
    let apply : Except Err (List Task) :=
      .ok (updateById tasks id (fun row =>
        { row with
          title := patch.title.getD row.title
          description := match patch.description with
            | some d => some d
            | none => row.description
          dueDate := match patch.dueDate with
            | some d => some d
            | none => row.dueDate
          priority := patch.priority.getD row.priority
          isComplete := patch.isComplete.getD row.isComplete
          projectId := match patch.projectId with
            | some pid => some pid
            | none => row.projectId }))
    match patch.projectId with
    | some pid =>
      match projects.find? (fun p => p.id == pid && p.userId == uid) with
      | none => .error .InvalidProject
      | some _ => apply
    | none => apply

/-- `GET /:id` of `projects.js`: fetch one project scoped to the acting
user; 404 `NotFound` on a miss. -/
def getProject (uid id : Nat) (projects : List Project) : Except Err Project :=
  match projects.find? (fun p => p.id == id && p.userId == uid) with
  | none => .error .NotFound
  | some p => .ok p

/-- `DELETE /:id` of `projects.js`: ownership-scoped lookup (404 on miss),
then one `$transaction` that sets `projectId := null` on every task whose
`projectId` equals the deleted id and removes the project row.  The
transaction is a single atomic step, so it is one Lean function from the
pre-state to the post-state with no intermediate state. -/
def deleteProject (uid pid : Nat) (projects : List Project) (tasks : List Task) :
    Except Err (List Project × List Task) :=
  match projects.find? (fun p => p.id == pid && p.userId == uid) with
  | none => .error .NotFound
  | some _ =>
    .ok (projects.filter (fun p => p.id ≠ pid),
      tasks.map (fun t => if t.projectId = some pid then { t with projectId := none } else t))

/-! ## Identity resolution (passport configuration file) -/

/-- A user row.  `password` is the optional bcrypt hash, `googleId` the
optional external-provider id. -/
structure User where
  id : Nat
  email : String
  password : Option String
  googleId : Option String
  name : String
  avatar : Option String
deriving DecidableEq

/-- The public projection returned by the local strategy on success:
`{ id, email, name, avatar }` — by construction no password field. -/
structure PublicUser where
  id : Nat
  email : String
  name : String
  avatar : Option String
deriving DecidableEq

/-- Authentication failures of the local strategy: `'Invalid credentials'`
and `'Please use Google login'` (password login unavailable). -/
inductive AuthErr
  | InvalidCredentials
  | PasswordLoginUnavailable
deriving DecidableEq

/-- The local strategy verify callback: look up by normalized (lowercased)
email (`findUnique({ where: { email: email.toLowerCase() } })`); no user →
`InvalidCredentials`; user without a password hash →
`PasswordLoginUnavailable`; `bcrypt.compare` mismatch →
`InvalidCredentials`; match → the public projection.  `verify` abstracts
`bcrypt.compare` and `toLower` abstracts JS `String.prototype.toLowerCase`
(both runtime-library collaborators). -/
def localLogin (verify : String → String → Bool) (toLower : String → String)
    (email password : String)
    (users : List User) : Except AuthErr PublicUser :=
  match users.find? (fun u => u.email == toLower email) with
  | none => .error .InvalidCredentials
  | some u =>
    match u.password with
    | none => .error .PasswordLoginUnavailable
    | some h =>
      if verify password h then
        .ok { id := u.id, email := u.email, name := u.name, avatar := u.avatar }
      else .error .InvalidCredentials

/-- The normalized OAuth profile consumed by the Google strategy callback:
`profile.id`, `profile.displayName`, `profile.emails[0].value`, and
`profile.photos[0]?.value` (absent when there is no photo; Prisma skips an
`undefined` field on update). -/
structure GProfile where
  id : String
  displayName : String
  email : String
  photo : Option String
deriving DecidableEq

/-- Avatar written by the Google-strategy updates: `profile.photos[0]?.value`
when a photo exists, otherwise the field is `undefined` and Prisma leaves
the stored avatar unchanged. -/
def applyAvatar (photo old : Option String) : Option String :=
  match photo with
  | some v => some v
  | none => old

/-- The Google strategy verify callback, in the source's resolution order:
(1) `findUnique({ where: { googleId } })` — hit: update name/avatar/email
from the profile; (2) else `findUnique({ where: { email } })` — hit: set
`googleId` and update name/avatar (the password column is not touched);
(3) else create a new user with the profile fields and no password, given
the fresh id `freshId`.  Returns the new user table and the user passed to
`done`. -/
def googleLogin (p : GProfile) (freshId : Nat) (users : List User) :
    List User × User :=
  match users.find? (fun u => u.googleId == some p.id) with
  | some u₀ =>
    let f : User → User := fun u =>
      { u with name := p.displayName, avatar := applyAvatar p.photo u.avatar, email := p.email }
    (users.map (fun u => if u.googleId = some p.id then f u else u), f u₀)
  | none =>
    match users.find? (fun u => u.email == p.email) with
    | some u₀ =>
      let f : User → User := fun u =>
        { u with googleId := some p.id, name := p.displayName, avatar := applyAvatar p.photo u.avatar }
      (users.map (fun u => if u.email = p.email then f u else u), f u₀)
    | none =>
      let newU : User :=
        { id := freshId, email := p.email, password := none, googleId := some p.id,
          name := p.displayName, avatar := p.photo }
      (users ++ [newU], newU)

/-! ## Helper lemmas -/

/-- A `find?` whose predicate pins down the task id returns exactly the
member with that id when ids are duplicate-free. -/
theorem find?_id_unique {tasks : List Task} {t : Task} {p : Task → Bool}
    (hnodup : (tasks.map Task.id).Nodup) (hmem : t ∈ tasks) (hp : p t = true)
    (hall : ∀ x, p x = true → x.id = t.id) :
    tasks.find? p = some t := by
  have hex : (tasks.find? p).isSome := by
    rw [List.find?_isSome]
    exact ⟨t, hmem, hp⟩
  obtain ⟨x, hx⟩ := Option.isSome_iff_exists.mp hex
  have hxmem := List.mem_of_find?_eq_some hx
  have hxpred := List.find?_some hx
  have hxt : x = t :=
    List.inj_on_of_nodup_map hnodup hxmem hmem (hall x hxpred)
  rw [hx, hxt]

theorem findOwned_eq_some {tasks : List Task} {t : Task} {uid id : Nat}
    (hnodup : (tasks.map Task.id).Nodup) (hmem : t ∈ tasks)
    (hid : t.id = id) (huid : t.userId = uid) :
    findOwned tasks uid id = some t := by
  refine find?_id_unique hnodup hmem (by simp [hid, huid]) ?_
  intro x hx
  simp only [Bool.and_eq_true, beq_iff_eq] at hx
  rw [hx.1, hid]

theorem findOwnedTrashed_eq_some {tasks : List Task} {t : Task} {uid id : Nat}
    (hnodup : (tasks.map Task.id).Nodup) (hmem : t ∈ tasks)
    (hid : t.id = id) (huid : t.userId = uid) (hdel : t.isDeleted = true) :
    findOwnedTrashed tasks uid id = some t := by
  refine find?_id_unique hnodup hmem (by simp [hid, huid, hdel]) ?_
  intro x hx
  simp only [Bool.and_eq_true, beq_iff_eq] at hx
  rw [hx.1.1, hid]

theorem findOwned_eq_none {tasks : List Task} {uid id : Nat}
    (h : ∀ t ∈ tasks, t.id = id → t.userId ≠ uid) :
    findOwned tasks uid id = none := by
  rw [findOwned, List.find?_eq_none]
  intro x hx
  simp only [Bool.and_eq_true, beq_iff_eq, not_and]
  exact h x hx

theorem findOwnedTrashed_eq_none {tasks : List Task} {uid id : Nat}
    (h : ∀ t ∈ tasks, t.id = id → t.userId ≠ uid) :
    findOwnedTrashed tasks uid id = none := by
  rw [findOwnedTrashed, List.find?_eq_none]
  intro x hx hpred
  simp only [Bool.and_eq_true, beq_iff_eq] at hpred
  exact absurd hpred.1.2 (h x hx hpred.1.1)

/-- When the only row with the given id is not soft-deleted, the
trash-scoped lookup misses. -/
theorem findOwnedTrashed_eq_none_of_active {tasks : List Task} {t : Task} {uid id : Nat}
    (hnodup : (tasks.map Task.id).Nodup) (hmem : t ∈ tasks) (hid : t.id = id)
    (hact : t.isDeleted = false) :
    findOwnedTrashed tasks uid id = none := by
  rw [findOwnedTrashed, List.find?_eq_none]
  intro x hx hpred
  simp only [Bool.and_eq_true, beq_iff_eq] at hpred
  have hxt : x = t :=
    List.inj_on_of_nodup_map hnodup hx hmem (by rw [hpred.1.1, hid])
  rw [hxt, hact] at hpred
  exact absurd hpred.2 (by simp)

theorem mem_updateById_of_mem {tasks : List Task} {t : Task} {id : Nat} {f : Task → Task}
    (hmem : t ∈ tasks) (hid : t.id = id) :
    f t ∈ updateById tasks id f := by
  rw [updateById]
  exact List.mem_map.mpr ⟨t, hmem, by rw [if_pos hid]⟩

theorem mem_updateById_of_ne {tasks : List Task} {u : Task} {id : Nat} {f : Task → Task}
    (hmem : u ∈ tasks) (hne : u.id ≠ id) :
    u ∈ updateById tasks id f := by
  rw [updateById]
  exact List.mem_map.mpr ⟨u, hmem, by rw [if_neg hne]⟩

theorem length_updateById (tasks : List Task) (id : Nat) (f : Task → Task) :
    (updateById tasks id f).length = tasks.length := by
  rw [updateById, List.length_map]

/-- `updateById` with an id-preserving row function leaves the id column
unchanged. -/
theorem updateById_map_id {tasks : List Task} {id : Nat} {f : Task → Task}
    (hf : ∀ x, (f x).id = x.id) :
    (updateById tasks id f).map Task.id = tasks.map Task.id := by
  rw [updateById, List.map_map]
  refine List.map_congr_left ?_
  intro x _
  by_cases hx : x.id = id
  · simp [hx, hf]
  · simp [hx]

/-- Membership in a `GET /` result is membership in the stored tasks plus
satisfaction of the built where clause. -/
theorem mem_listTasks {uid : Nat} {today tomorrow : Int} {c : Criteria}
    {tasks : List Task} {t : Task} :
    t ∈ listTasks uid today tomorrow c tasks ↔
      t ∈ tasks ∧ matchesWhere (buildWhere uid today tomorrow c) t = true := by
  rw [listTasks, (List.perm_insertionSort TaskOrder _).mem_iff, List.mem_filter]

theorem buildWhere_userId (uid : Nat) (today tomorrow : Int) (c : Criteria) :
    (buildWhere uid today tomorrow c).userId = uid := by
  simp only [buildWhere]
  repeat' split
  all_goals rfl

theorem matchesWhere_userId {w : TaskWhere} {t : Task}
    (h : matchesWhere w t = true) : t.userId = w.userId := by
  rw [matchesWhere] at h
  simp only [Bool.and_eq_true, beq_iff_eq] at h
  exact h.1.1.1.1.1.1.1

theorem matchesWhere_isComplete {w : TaskWhere} {t : Task} {b : Bool}
    (h : matchesWhere w t = true) (hb : w.isComplete = some b) :
    t.isComplete = b := by
  rw [matchesWhere] at h
  simp only [Bool.and_eq_true, beq_iff_eq] at h
  have := h.1.1.1.1.1.2
  rw [hb] at this
  simpa using this

theorem matchesWhere_isDeleted {w : TaskWhere} {t : Task} {b : Bool}
    (h : matchesWhere w t = true) (hb : w.isDeleted = some b) :
    t.isDeleted = b := by
  rw [matchesWhere] at h
  simp only [Bool.and_eq_true, beq_iff_eq] at h
  have := h.1.1.1.1.1.1.2
  rw [hb] at this
  simpa using this

/-! ## Concrete rows used by witnesses and counterexamples -/

/-- A plain active task owned by user 1. -/
def baseTask : Task :=
  { id := 1, title := "t", description := none, dueDate := none,
    priority := .MEDIUM, isComplete := false, isDeleted := false,
    deletedAt := none, projectId := none, userId := 1, createdAt := 0 }

/-- A soft-deleted, incomplete task owned by user 1. -/
def trashedTask : Task :=
  { baseTask with isDeleted := true, deletedAt := some 5 }

/-! ## Claims -/

/-- **C2** counterexample: the toggle route on a soft-deleted task is not a
no-op — it flips `isComplete`, so the stored task changes. -/
theorem C2_counterexample :
    trashedTask.isDeleted = true ∧
    toggleTask 1 1 [trashedTask] = .ok [{ trashedTask with isComplete := true }] ∧
    ({ trashedTask with isComplete := true } : Task) ≠ trashedTask :=
  ⟨rfl, rfl, by decide⟩

/-- **C2** (amended). The toggle route's lookup filters only on `{ id,
userId }`, with no `isDeleted` condition, so toggling is not restricted to
active tasks: for every stored task — soft-deleted included — the operation
succeeds and flips exactly the `isComplete` flag of that row, keeping every
other field of the row (the record update touches only `isComplete`) and
every other row unchanged. -/
theorem C2_toggle_flips_even_deleted (uid id : Nat) (tasks : List Task) (t : Task)
    (hnodup : (tasks.map Task.id).Nodup) (hmem : t ∈ tasks)
    (hid : t.id = id) (huid : t.userId = uid) (hdel : t.isDeleted = true) :
    ∃ tasks', toggleTask uid id tasks = .ok tasks' ∧
      { t with isComplete := !t.isComplete } ∈ tasks' ∧
      (∀ u ∈ tasks, u.id ≠ id → u ∈ tasks') ∧
      tasks'.length = tasks.length := by
  have hfind := findOwned_eq_some hnodup hmem hid huid
  refine ⟨_, by rw [toggleTask, hfind], ?_, ?_, ?_⟩
  · exact mem_updateById_of_mem hmem hid
  · intro u hu hne
    exact mem_updateById_of_ne hu hne
  · exact length_updateById tasks id _

/-- Witness for C2's amended theorem at a concrete trashed task. -/
theorem C2_toggle_flips_even_deleted_witness :
    ∃ tasks', toggleTask 1 1 [trashedTask] = .ok tasks' ∧
      { trashedTask with isComplete := !trashedTask.isComplete } ∈ tasks' ∧
      (∀ u ∈ [trashedTask], u.id ≠ 1 → u ∈ tasks') ∧
      tasks'.length = [trashedTask].length :=
  C2_toggle_flips_even_deleted 1 1 [trashedTask] trashedTask
    (by decide) (by simp) rfl rfl rfl

/-- **C10**. Soft delete does not reject an already-trashed task: the
lookup has no `isDeleted` condition, so for a task whose soft-delete flag
is already `true` the operation succeeds, keeps `isDeleted = true`, and
overwrites `deletedAt` with the current time (the original deletion
timestamp is lost); other rows are untouched. -/
theorem C10_softDelete_overwrites_timestamp (uid id : Nat) (now : Int)
    (tasks : List Task) (t : Task)
    (hnodup : (tasks.map Task.id).Nodup) (hmem : t ∈ tasks)
    (hid : t.id = id) (huid : t.userId = uid) (hdel : t.isDeleted = true) :
    ∃ tasks', softDeleteTask uid id now tasks = .ok tasks' ∧
      { t with isDeleted := true, deletedAt := some now } ∈ tasks' ∧
      (∀ u ∈ tasks, u.id ≠ id → u ∈ tasks') ∧
      tasks'.length = tasks.length := by
  have hfind := findOwned_eq_some hnodup hmem hid huid
  refine ⟨_, by rw [softDeleteTask, hfind], ?_, ?_, ?_⟩
  · exact mem_updateById_of_mem hmem hid
  · intro u hu hne
    exact mem_updateById_of_ne hu hne
  · exact length_updateById tasks id _

/-- Witness for C10 at a task already in trash with `deletedAt = some 5`;
re-deleting at time 9 stores `deletedAt = some 9`. -/
theorem C10_softDelete_overwrites_timestamp_witness :
    ∃ tasks', softDeleteTask 1 1 9 [trashedTask] = .ok tasks' ∧
      { trashedTask with isDeleted := true, deletedAt := some 9 } ∈ tasks' ∧
      (∀ u ∈ [trashedTask], u.id ≠ 1 → u ∈ tasks') ∧
      tasks'.length = [trashedTask].length :=
  C10_softDelete_overwrites_timestamp 1 1 9 [trashedTask] trashedTask
    (by decide) (by simp) rfl rfl rfl

/-- **C3**. Purge and restore are only permitted from the trashed state:
for an owned task whose soft-delete flag is `false`, both `DELETE
/:id/permanent` and `PATCH /:id/restore` fail with `NotInTrash` (the 404
`'Task not found in trash'` path, which performs no write, so the stored
state is unchanged); for an owned task whose soft-delete flag is `true`,
purge succeeds and removes the row, after which `GET /:id` on that id
fails with `NotFound`. -/
theorem C3_purge_restore_trash_only (uid id : Nat) (tasks : List Task) (t : Task)
    (hnodup : (tasks.map Task.id).Nodup) (hmem : t ∈ tasks)
    (hid : t.id = id) (huid : t.userId = uid) :
    (t.isDeleted = false →
      purgeTask uid id tasks = .error .NotInTrash ∧
      restoreTask uid id tasks = .error .NotInTrash) ∧
    (t.isDeleted = true →
      ∃ tasks', purgeTask uid id tasks = .ok tasks' ∧
        getTask uid id tasks' = .error .NotFound) := by
  constructor
  · intro hact
    have hnone : findOwnedTrashed tasks uid id = none :=
      findOwnedTrashed_eq_none_of_active hnodup hmem hid hact
    exact ⟨by rw [purgeTask, hnone], by rw [restoreTask, hnone]⟩
  · intro hdel
    have hfind := findOwnedTrashed_eq_some hnodup hmem hid huid hdel
    refine ⟨_, by rw [purgeTask, hfind], ?_⟩
    have hnone : findOwned (tasks.filter fun x => x.id ≠ id) uid id = none := by
      rw [findOwned, List.find?_eq_none]
      intro x hx hpred
      have hxne := (List.mem_filter.mp hx).2
      simp only [Bool.and_eq_true, beq_iff_eq] at hpred
      simp only [ne_eq, decide_not, Bool.not_eq_true', decide_eq_false_iff_not] at hxne
      exact hxne hpred.1
    rw [getTask, hnone]

/-- Witness for C3: an active task cannot be purged or restored; a trashed
task purges away and a subsequent fetch misses. -/
theorem C3_purge_restore_trash_only_witness :
    (purgeTask 1 1 [baseTask] = .error .NotInTrash ∧
      restoreTask 1 1 [baseTask] = .error .NotInTrash) ∧
    (∃ tasks', purgeTask 1 1 [trashedTask] = .ok tasks' ∧
      getTask 1 1 tasks' = .error .NotFound) :=
  ⟨(C3_purge_restore_trash_only 1 1 [baseTask] baseTask
      (by decide) (by simp) rfl rfl).1 rfl,
    (C3_purge_restore_trash_only 1 1 [trashedTask] trashedTask
      (by decide) (by simp) rfl rfl).2 rfl⟩

/-- **C4**. Soft delete followed by restore is a round trip: for an active
owned task (`isDeleted = false`, `deletedAt = none`), `DELETE /:id`
produces an intermediate state (flag set, `deletedAt` stamped, all other
fields preserved) from which `PATCH /:id/restore` returns exactly the
original task list — in particular `isComplete` is preserved, not reset,
and `isDeleted = false`, `deletedAt = none` again hold. -/
theorem C4_delete_restore_roundtrip (uid id : Nat) (now : Int)
    (tasks : List Task) (t : Task)
    (hnodup : (tasks.map Task.id).Nodup) (hmem : t ∈ tasks)
    (hid : t.id = id) (huid : t.userId = uid)
    (hact : t.isDeleted = false) (hda : t.deletedAt = none) :
    ∃ mid, softDeleteTask uid id now tasks = .ok mid ∧
      restoreTask uid id mid = .ok tasks := by
  have hfind := findOwned_eq_some hnodup hmem hid huid
  refine ⟨_, by rw [softDeleteTask, hfind], ?_⟩
  have hmem' : ({ t with isDeleted := true, deletedAt := some now } : Task) ∈
      updateById tasks id (fun row => { row with isDeleted := true, deletedAt := some now }) :=
    mem_updateById_of_mem hmem hid
  have hids : (updateById tasks id
      (fun row => { row with isDeleted := true, deletedAt := some now })).map Task.id
      = tasks.map Task.id :=
    updateById_map_id (fun _ => rfl)
  have hnodup' : ((updateById tasks id
      (fun row => { row with isDeleted := true, deletedAt := some now })).map Task.id).Nodup := by
    rw [hids]
    exact hnodup
  have hfind' := findOwnedTrashed_eq_some hnodup' hmem' hid huid rfl
  have hpt : ∀ x ∈ tasks,
      ((fun u => if u.id = id then { u with isDeleted := false, deletedAt := none } else u) ∘
        (fun u => if u.id = id then { u with isDeleted := true, deletedAt := some now } else u)) x
      = x := by
    intro x hx
    by_cases hxid : x.id = id
    · have hxt : x = t :=
        List.inj_on_of_nodup_map hnodup hx hmem (by rw [hxid, hid])
      subst hxt
      simp only [Function.comp_apply, if_pos hxid]
      rw [← hact, ← hda]
    · simp only [Function.comp_apply, if_neg hxid]
  have hfinal : updateById (updateById tasks id
      (fun row => { row with isDeleted := true, deletedAt := some now })) id
      (fun row => { row with isDeleted := false, deletedAt := none }) = tasks := by
    rw [updateById, updateById, List.map_map, List.map_congr_left hpt]
    exact List.map_id' tasks
  rw [restoreTask, hfind']
  exact congrArg Except.ok hfinal

/-- Witness for C4 at a concrete active task. -/
theorem C4_delete_restore_roundtrip_witness :
    ∃ mid, softDeleteTask 1 1 9 [baseTask] = .ok mid ∧
      restoreTask 1 1 mid = .ok [baseTask] :=
  C4_delete_restore_roundtrip 1 1 9 [baseTask] baseTask
    (by decide) (by simp) rfl rfl rfl rfl

/-- **C1** counterexample: with `view=completed` and `status=incomplete`
the list operation does *not* return the empty sequence — an incomplete,
non-deleted task is returned, because the status block reassigns
`where.isComplete` and overwrites the value the view block set. -/
theorem C1_counterexample :
    listTasks 1 0 1 { view := some .completed, status := some .incomplete } [baseTask]
      = [baseTask] ∧
    baseTask.isComplete = false ∧ baseTask.isDeleted = false ∧
    listTasks 1 0 1 { view := some .completed, status := some .incomplete } [baseTask]
      ≠ [] := by
  have h1 : listTasks 1 0 1
      { view := some .completed, status := some .incomplete } [baseTask] = [baseTask] := by
    rfl
  exact ⟨h1, rfl, rfl, by rw [h1]; simp⟩

/-- **C1** (amended). The `status` filter is applied after the view's base
scope but by *reassigning* the same `isComplete` field of the where object,
not by adding an AND constraint: for `view=completed` with
`status=incomplete` the final where clause carries `isComplete = some
false` and `isDeleted = some false`, so the operation returns exactly the
stored tasks matching that clause — every returned task is incomplete and
non-deleted, and the result is in general nonempty rather than empty. -/
theorem C1_status_overrides_completed_view (uid : Nat) (today tomorrow : Int)
    (c : Criteria) (tasks : List Task)
    (hv : c.view = some .completed) (hs : c.status = some .incomplete) :
    (buildWhere uid today tomorrow c).isComplete = some false ∧
    (buildWhere uid today tomorrow c).isDeleted = some false ∧
    (∀ t, t ∈ listTasks uid today tomorrow c tasks ↔
      t ∈ tasks ∧ matchesWhere (buildWhere uid today tomorrow c) t = true) ∧
    (∀ t ∈ listTasks uid today tomorrow c tasks,
      t.isComplete = false ∧ t.isDeleted = false) := by
  have hw : (buildWhere uid today tomorrow c).isComplete = some false ∧
      (buildWhere uid today tomorrow c).isDeleted = some false := by
    simp only [buildWhere, hv, hs]
    repeat' split
    all_goals exact ⟨rfl, rfl⟩
  refine ⟨hw.1, hw.2, fun _ => mem_listTasks, fun t ht => ?_⟩
  exact ⟨matchesWhere_isComplete (mem_listTasks.mp ht).2 hw.1,
    matchesWhere_isDeleted (mem_listTasks.mp ht).2 hw.2⟩

/-- Witness for C1's amended theorem at the concrete criteria and task of
the counterexample. -/
theorem C1_status_overrides_completed_view_witness :
    (buildWhere 1 0 1 { view := some .completed, status := some .incomplete }).isComplete
      = some false ∧
    (buildWhere 1 0 1 { view := some .completed, status := some .incomplete }).isDeleted
      = some false ∧
    (∀ t, t ∈ listTasks 1 0 1
        { view := some .completed, status := some .incomplete } [baseTask] ↔
      t ∈ [baseTask] ∧ matchesWhere
        (buildWhere 1 0 1 { view := some .completed, status := some .incomplete }) t = true) ∧
    (∀ t ∈ listTasks 1 0 1
        { view := some .completed, status := some .incomplete } [baseTask],
      t.isComplete = false ∧ t.isDeleted = false) :=
  C1_status_overrides_completed_view 1 0 1
    { view := some .completed, status := some .incomplete } [baseTask] rfl rfl

/-- **C5**. Deleting a project clears the project reference on every task
that references it, in the same atomic `$transaction` as the project's
removal (embedded as one step from pre-state to post-state): afterwards no
task references the deleted id, referential integrity is preserved, no
task row is removed, and each task is either unchanged or changed only by
`projectId := none`. -/
theorem C5_deleteProject_clears_references (uid pid : Nat)
    (projects projects' : List Project) (tasks tasks' : List Task)
    (h : deleteProject uid pid projects tasks = .ok (projects', tasks'))
    (hinv : ∀ t ∈ tasks, ∀ q, t.projectId = some q → ∃ p ∈ projects, p.id = q) :
    (∀ t ∈ tasks', t.projectId ≠ some pid) ∧
    (∀ t ∈ tasks', ∀ q, t.projectId = some q → ∃ p ∈ projects', p.id = q) ∧
    tasks'.length = tasks.length ∧
    (∀ t ∈ tasks, t ∈ tasks' ∨ ({ t with projectId := none } : Task) ∈ tasks') ∧
    (∀ p ∈ projects', p ∈ projects ∧ p.id ≠ pid) := by
  rw [deleteProject] at h
  cases hfind : projects.find? (fun p => p.id == pid && p.userId == uid) with
  | none =>
    rw [hfind] at h
    exact absurd h (by simp)
  | some p₀ =>
    rw [hfind] at h
    simp only [Except.ok.injEq, Prod.mk.injEq] at h
    obtain ⟨hp, ht⟩ := h
    subst hp
    subst ht
    refine ⟨?_, ?_, List.length_map _ _, ?_, ?_⟩
    · intro t' ht'
      obtain ⟨x, hx, rfl⟩ := List.mem_map.mp ht'
      by_cases hxp : x.projectId = some pid
      · simp [hxp]
      · simp only [if_neg hxp]
        exact hxp
    · intro t' ht' q hq
      obtain ⟨x, hx, rfl⟩ := List.mem_map.mp ht'
      by_cases hxp : x.projectId = some pid
      · rw [if_pos hxp] at hq
        simp at hq
      · rw [if_neg hxp] at hq
        have hqpid : q ≠ pid := by
          intro hqeq
          rw [hqeq] at hq
          exact hxp hq
        obtain ⟨p, hpmem, hpid⟩ := hinv x hx q hq
        refine ⟨p, List.mem_filter.mpr ⟨hpmem, ?_⟩, hpid⟩
        simp only [ne_eq, decide_not, Bool.not_eq_true', decide_eq_false_iff_not]
        rw [hpid]
        exact hqpid
    · intro x hx
      by_cases hxp : x.projectId = some pid
      · right
        exact List.mem_map.mpr ⟨x, hx, by rw [if_pos hxp]⟩
      · left
        exact List.mem_map.mpr ⟨x, hx, by rw [if_neg hxp]⟩
    · intro p hp
      have := List.mem_filter.mp hp
      refine ⟨this.1, ?_⟩
      have h2 := this.2
      simp only [ne_eq, decide_not, Bool.not_eq_true', decide_eq_false_iff_not] at h2
      exact h2

/-- A concrete project owned by user 1. -/
def baseProject : Project :=
  { id := 3, name := "p", color := "#3B82F6", userId := 1, createdAt := 0 }

/-- `baseTask` linked to `baseProject`. -/
def linkedTask : Task :=
  { baseTask with projectId := some 3 }

/-- Witness for C5 at a concrete one-project, one-task state. -/
theorem C5_deleteProject_clears_references_witness :
    (∀ t ∈ [({ linkedTask with projectId := none } : Task)], t.projectId ≠ some 3) ∧
    (∀ t ∈ [({ linkedTask with projectId := none } : Task)], ∀ q,
      t.projectId = some q → ∃ p ∈ ([] : List Project), p.id = q) ∧
    [({ linkedTask with projectId := none } : Task)].length = [linkedTask].length ∧
    (∀ t ∈ [linkedTask], t ∈ [({ linkedTask with projectId := none } : Task)] ∨
      ({ t with projectId := none } : Task) ∈ [({ linkedTask with projectId := none } : Task)]) ∧
    (∀ p ∈ ([] : List Project), p ∈ [baseProject] ∧ p.id ≠ 3) :=
  C5_deleteProject_clears_references 1 3 [baseProject] [] [linkedTask]
    [({ linkedTask with projectId := none } : Task)] rfl
    (by
      intro t ht q hq
      simp only [List.mem_singleton] at ht
      subst ht
      simp only [linkedTask, baseTask] at hq
      simp only [Option.some.injEq] at hq
      subst hq
      exact ⟨baseProject, by simp, rfl⟩)

/-- **C7**. Cross-owner isolation: when no stored task (resp. project) with
the requested id belongs to the acting user — which covers both an id owned
by a different user and a nonexistent id — every operation returns the same
constant outcome it returns for a nonexistent id (`NotFound`, or the
trash-lookup miss `NotInTrash` for restore/purge) and performs no write;
and every task of a list result belongs to the acting user. -/
theorem C7_cross_owner_isolation (A id : Nat) (today tomorrow now : Int)
    (c : Criteria) (patch : TaskPatch) (tasks : List Task) (projects : List Project)
    (htask : ∀ t ∈ tasks, t.id = id → t.userId ≠ A)
    (hproj : ∀ p ∈ projects, p.id = id → p.userId ≠ A) :
    getTask A id tasks = .error .NotFound ∧
    updateTask A id patch projects tasks = .error .NotFound ∧
    toggleTask A id tasks = .error .NotFound ∧
    softDeleteTask A id now tasks = .error .NotFound ∧
    restoreTask A id tasks = .error .NotInTrash ∧
    purgeTask A id tasks = .error .NotInTrash ∧
    getProject A id projects = .error .NotFound ∧
    deleteProject A id projects tasks = .error .NotFound ∧
    (∀ t ∈ listTasks A today tomorrow c tasks, t.userId = A) := by
  have hT : findOwned tasks A id = none := findOwned_eq_none htask
  have hTt : findOwnedTrashed tasks A id = none := findOwnedTrashed_eq_none htask
  have hP : projects.find? (fun p => p.id == id && p.userId == A) = none := by
    rw [List.find?_eq_none]
    intro x hx hpred
    simp only [Bool.and_eq_true, beq_iff_eq] at hpred
    exact absurd hpred.2 (hproj x hx hpred.1)
  refine ⟨by rw [getTask, hT], by rw [updateTask, hT], by rw [toggleTask, hT],
    by rw [softDeleteTask, hT], by rw [restoreTask, hTt], by rw [purgeTask, hTt],
    by rw [getProject, hP], by rw [deleteProject, hP], ?_⟩
  intro t ht
  have hu := matchesWhere_userId (mem_listTasks.mp ht).2
  rwa [buildWhere_userId] at hu

/-- A task owned by user 2 with the same id requested by user 1. -/
def foreignTask : Task :=
  { baseTask with userId := 2 }

/-- A project owned by user 2. -/
def foreignProject : Project :=
  { id := 1, name := "q", color := "#10B981", userId := 2, createdAt := 0 }

/-- Witness for C7: user 1 requesting user 2's task id 1 and project id 1
gets the nonexistent-id outcome everywhere, and a list result for user 1
contains only user 1's tasks. -/
theorem C7_cross_owner_isolation_witness :
    getTask 1 1 [foreignTask] = .error .NotFound ∧
    updateTask 1 1 {} [foreignProject] [foreignTask] = .error .NotFound ∧
    toggleTask 1 1 [foreignTask] = .error .NotFound ∧
    softDeleteTask 1 1 0 [foreignTask] = .error .NotFound ∧
    restoreTask 1 1 [foreignTask] = .error .NotInTrash ∧
    purgeTask 1 1 [foreignTask] = .error .NotInTrash ∧
    getProject 1 1 [foreignProject] = .error .NotFound ∧
    deleteProject 1 1 [foreignProject] [foreignTask] = .error .NotFound ∧
    (∀ t ∈ listTasks 1 0 1 {} [foreignTask], t.userId = 1) :=
  C7_cross_owner_isolation 1 1 0 1 0 {} {} [foreignTask] [foreignProject]
    (by decide) (by decide)

/-- Strict "sorts earlier" on optional due dates: dated before dated by the
date, every dated task before every undated one. -/
def dueBefore : Option Int → Option Int → Prop
  | some a, some b => a < b
  | some _, none => True
  | none, _ => False

/-- The three-key order of the claim: due date ascending with `none` after
all dated tasks, then priority descending (`HIGH` before `MEDIUM` before
`LOW`), then creation time descending. -/
def threeKeyLE (a b : Task) : Prop :=
  dueBefore a.dueDate b.dueDate ∨
    (a.dueDate = b.dueDate ∧
      (b.priority.rank < a.priority.rank ∨
        (a.priority = b.priority ∧ b.createdAt ≤ a.createdAt)))

theorem Priority.rank_inj : ∀ p q : Priority, p.rank = q.rank → p = q := by
  intro p q h
  cases p <;> cases q <;> simp_all [Priority.rank]

/-- The first component of `sortKey`, on its own. -/
def dueKey (o : Option Int) : WithTop Int :=
  o.elim ⊤ (fun d => (d : WithTop Int))

theorem dueKey_lt_iff {o₁ o₂ : Option Int} :
    dueKey o₁ < dueKey o₂ ↔ dueBefore o₁ o₂ := by
  cases o₁ <;> cases o₂ <;>
    simp [dueKey, dueBefore, Option.elim, WithTop.coe_lt_top, WithTop.coe_lt_coe]

theorem dueKey_inj {o₁ o₂ : Option Int} (h : dueKey o₁ = dueKey o₂) :
    o₁ = o₂ := by
  cases o₁ <;> cases o₂ <;> simp_all [dueKey, Option.elim]

theorem taskOrder_imp_threeKeyLE {a b : Task} (h : TaskOrder a b) :
    threeKeyLE a b := by
  rw [TaskOrder] at h
  have h' : toLex (dueKey a.dueDate,
        toLex (OrderDual.toDual a.priority.rank, OrderDual.toDual a.createdAt)) ≤
      toLex (dueKey b.dueDate,
        toLex (OrderDual.toDual b.priority.rank, OrderDual.toDual b.createdAt)) := h
  rw [Prod.Lex.le_iff] at h'
  rcases h' with h1 | ⟨heq, h2⟩
  · exact Or.inl (dueKey_lt_iff.mp h1)
  · refine Or.inr ⟨dueKey_inj heq, ?_⟩
    rw [Prod.Lex.le_iff] at h2
    rcases h2 with h3 | ⟨heq2, h4⟩
    · exact Or.inl (by simpa using h3)
    · have hr : a.priority.rank = b.priority.rank := by simpa using heq2
      exact Or.inr ⟨Priority.rank_inj _ _ hr, by simpa using h4⟩

/-- **C8**. For every owner, criteria, and task set, the list operation
returns exactly the tasks satisfying the built where clause (a permutation
of the filtered input) in the fixed three-key order: due date ascending
with undated tasks after all dated ones, then priority descending, then
creation time descending as final tie-break.  The operation is a pure
function of its inputs, hence deterministic for equal inputs. -/
theorem C8_listTasks_three_key_order (uid : Nat) (today tomorrow : Int)
    (c : Criteria) (tasks : List Task) :
    (listTasks uid today tomorrow c tasks).Pairwise threeKeyLE ∧
    List.Perm (listTasks uid today tomorrow c tasks)
      (tasks.filter (fun t => matchesWhere (buildWhere uid today tomorrow c) t)) := by
  constructor
  · have hs := List.sorted_insertionSort TaskOrder
      (tasks.filter (fun t => matchesWhere (buildWhere uid today tomorrow c) t))
    exact List.Pairwise.imp (fun h => taskOrder_imp_threeKeyLE h) hs
  · exact List.perm_insertionSort TaskOrder _

/-- **C9**. Local login: no user under the normalized email fails with
`InvalidCredentials`; a matched user without a password hash fails with
`PasswordLoginUnavailable`; a failed hash verification fails with
`InvalidCredentials`; success returns exactly the public projection
`{ id, email, name, avatar }` — a `PublicUser`, which has no password
field, so the hash cannot be included. -/
theorem C9_localLogin_cases (verify : String → String → Bool)
    (toLower : String → String) (email password : String) (users : List User) :
    ((∀ u ∈ users, u.email ≠ toLower email) →
      localLogin verify toLower email password users = .error .InvalidCredentials) ∧
    (∀ u, users.find? (fun x => x.email == toLower email) = some u →
      (u.password = none →
        localLogin verify toLower email password users = .error .PasswordLoginUnavailable) ∧
      (∀ h, u.password = some h → verify password h = false →
        localLogin verify toLower email password users = .error .InvalidCredentials) ∧
      (∀ h, u.password = some h → verify password h = true →
        localLogin verify toLower email password users =
          .ok { id := u.id, email := u.email, name := u.name, avatar := u.avatar })) := by
  constructor
  · intro hnone
    have hfind : users.find? (fun x => x.email == toLower email) = none := by
      rw [List.find?_eq_none]
      intro x hx hpred
      simp only [beq_iff_eq] at hpred
      exact hnone x hx hpred
    rw [localLogin, hfind]
  · intro u hfind
    refine ⟨?_, ?_, ?_⟩
    · intro hpw
      simp [localLogin, hfind, hpw]
    · intro h hpw hv
      simp [localLogin, hfind, hpw, hv]
    · intro h hpw hv
      simp [localLogin, hfind, hpw, hv]

/-- A password-based local account. -/
def localUser : User :=
  { id := 4, email := "a@b.c", password := some "hash", googleId := none,
    name := "A", avatar := none }

/-- An OAuth-only account (no password hash). -/
def oauthUser : User :=
  { id := 5, email := "o@b.c", password := none, googleId := some "g5",
    name := "O", avatar := none }

/-- Witness for C9: an unknown email, an OAuth-only account, a wrong
password and a right password, with equality as the verifier and the
identity as the (already-lowercase) normalizer. -/
theorem C9_localLogin_cases_witness :
    localLogin (fun p h => p == h) (fun s => s) "x@b.c" "pw" [localUser, oauthUser]
      = .error .InvalidCredentials ∧
    localLogin (fun p h => p == h) (fun s => s) "o@b.c" "pw" [localUser, oauthUser]
      = .error .PasswordLoginUnavailable ∧
    localLogin (fun p h => p == h) (fun s => s) "a@b.c" "wrong" [localUser, oauthUser]
      = .error .InvalidCredentials ∧
    localLogin (fun p h => p == h) (fun s => s) "a@b.c" "hash" [localUser, oauthUser]
      = .ok { id := 4, email := "a@b.c", name := "A", avatar := none } :=
  ⟨(C9_localLogin_cases (fun p h => p == h) (fun s => s) "x@b.c" "pw"
      [localUser, oauthUser]).1 (by decide),
    ((C9_localLogin_cases (fun p h => p == h) (fun s => s) "o@b.c" "pw"
      [localUser, oauthUser]).2 oauthUser (by decide)).1 rfl,
    (((C9_localLogin_cases (fun p h => p == h) (fun s => s) "a@b.c" "wrong"
      [localUser, oauthUser]).2 localUser (by decide)).2.1 "hash" rfl (by decide)),
    (((C9_localLogin_cases (fun p h => p == h) (fun s => s) "a@b.c" "hash"
      [localUser, oauthUser]).2 localUser (by decide)).2.2 "hash" rfl (by decide))⟩

/-- **C6**. OAuth login resolves identity in the source's fixed priority
order.  (1) A `googleId` hit returns that user with name, avatar and email
refreshed from the profile, id and password untouched.  (2) Otherwise an
email hit links the external id onto that account, refreshes name and
avatar, and keeps the password hash — in particular a password-based
account gains `googleId` while `password` stays `some hash`, so one
account holds both capabilities.  (3) Otherwise a new user is created with
the external id, the profile email/name/avatar, and no password, appended
to the user table. -/
theorem C6_googleLogin_resolution_order (p : GProfile) (freshId : Nat)
    (users : List User) :
    (∀ u₀, users.find? (fun u => u.googleId == some p.id) = some u₀ →
      (googleLogin p freshId users).2 =
        { u₀ with name := p.displayName, avatar := applyAvatar p.photo u₀.avatar, email := p.email } ∧
      (googleLogin p freshId users).2.id = u₀.id ∧
      (googleLogin p freshId users).2.password = u₀.password) ∧
    (users.find? (fun u => u.googleId == some p.id) = none →
      ∀ u₀, users.find? (fun u => u.email == p.email) = some u₀ →
      (googleLogin p freshId users).2 =
        { u₀ with googleId := some p.id, name := p.displayName, avatar := applyAvatar p.photo u₀.avatar } ∧
      (googleLogin p freshId users).2.password = u₀.password ∧
      (googleLogin p freshId users).2.googleId = some p.id ∧
      (googleLogin p freshId users).2.email = u₀.email ∧
      (∀ h, u₀.password = some h →
        (googleLogin p freshId users).2.password = some h ∧
        (googleLogin p freshId users).2.googleId = some p.id)) ∧
    (users.find? (fun u => u.googleId == some p.id) = none →
      users.find? (fun u => u.email == p.email) = none →
      (googleLogin p freshId users).2 =
        { id := freshId, email := p.email, password := none, googleId := some p.id,
          name := p.displayName, avatar := p.photo } ∧
      (googleLogin p freshId users).1 = users ++ [(googleLogin p freshId users).2]) := by
  refine ⟨?_, ?_, ?_⟩
  · intro u₀ hg
    simp [googleLogin, hg]
  · intro hg u₀ he
    have h2 : (googleLogin p freshId users).2 =
        { u₀ with googleId := some p.id, name := p.displayName, avatar := applyAvatar p.photo u₀.avatar } := by
      simp [googleLogin, hg, he]
    refine ⟨h2, by rw [h2], by rw [h2], by rw [h2], ?_⟩
    intro h hpw
    rw [h2]
    exact ⟨hpw, rfl⟩
  · intro hg he
    constructor
    · simp [googleLogin, hg, he]
    · simp [googleLogin, hg, he]

/-- Witness for C6, exercising the email-match branch: a password-based
local account with email `e` and no `googleId`, after an OAuth login whose
profile email is `e`, holds both the password hash and the external id. -/
theorem C6_googleLogin_resolution_order_witness :
    (googleLogin { id := "g9", displayName := "N", email := "a@b.c", photo := some "av" }
        7 [localUser]).2 =
      { localUser with googleId := some "g9", name := "N", avatar := applyAvatar (some "av") localUser.avatar } ∧
    (googleLogin { id := "g9", displayName := "N", email := "a@b.c", photo := some "av" }
        7 [localUser]).2.password = localUser.password ∧
    (googleLogin { id := "g9", displayName := "N", email := "a@b.c", photo := some "av" }
        7 [localUser]).2.googleId = some "g9" ∧
    (googleLogin { id := "g9", displayName := "N", email := "a@b.c", photo := some "av" }
        7 [localUser]).2.email = localUser.email ∧
    (∀ h, localUser.password = some h →
      (googleLogin { id := "g9", displayName := "N", email := "a@b.c", photo := some "av" }
          7 [localUser]).2.password = some h ∧
      (googleLogin { id := "g9", displayName := "N", email := "a@b.c", photo := some "av" }
          7 [localUser]).2.googleId = some "g9") :=
  (C6_googleLogin_resolution_order
      { id := "g9", displayName := "N", email := "a@b.c", photo := some "av" }
      7 [localUser]).2.1 (by decide) localUser (by decide)

end Todo
